import Mathlib

/-!
Verification of the report-extraction engine of `openshift-health-dashboard`.

The engine lives in `app/server/utils/asciidoc_helpers.go` (the revision that
defines `CountAllStatusItems`, `CountStatusByCategory`, `CalculateCategoryScore`
and the Summary-sliced item extractors) and in the revision of
`app/server/utils/report_parser.go` whose `ParseAsciiDocExecutiveSummary`
computes the overall score from `CountAllStatusItems` and the category scores
from `CountStatusByCategory`.  Every definition below is a direct translation
of one Go function from those files; Go `float64` score arithmetic is modelled
exactly with `ℚ` (all quantities involved are small integers, so the Go floats
are exact), Go `int` scores that are provably nonnegative are modelled with
`ℕ`, and Go strings are modelled with Lean `String` via their character lists.
-/

namespace OHD

/-- Character-list test used to model `strings.HasPrefix`: does `s` begin with
`pat`? -/
def listStarts : List Char → List Char → Bool
  | [], _ => true
  | _ :: _, [] => false
  | p :: ps, c :: cs => p == c && listStarts ps cs

/-- Character-list test used to model `strings.Contains`: does `s` contain
`pat` as a contiguous substring? -/
def strContains (pat : List Char) : List Char → Bool
  | [] => listStarts pat []
  | c :: cs => listStarts pat (c :: cs) || strContains pat cs

/-- Model of Go `strings.Contains(s, sub)`. -/
def goContains (s sub : String) : Bool :=
  strContains sub.toList s.toList

/-- Model of Go `strings.HasPrefix(s, pre)`. -/
def goStarts (s pre : String) : Bool :=
  listStarts pre.toList s.toList

/-- Model of Go `strings.HasSuffix(s, suf)`. -/
def goEnds (s suf : String) : Bool :=
  listStarts suf.toList.reverse s.toList.reverse

/-- The white-space predicate of Go `strings.TrimSpace` (the Unicode spaces
that can occur in the reports: ASCII spaces plus NEL and NBSP). -/
def isGoSpace (c : Char) : Bool :=
  c == ' ' || c == '\t' || c == '\n' || c == '\x0b' || c == '\x0c' || c == '\r' ||
    c == '\u0085' || c == '\u00A0'

/-- Model of Go `strings.TrimSpace`. -/
def goTrim (s : String) : String :=
  ⟨((s.toList.dropWhile isGoSpace).reverse.dropWhile isGoSpace).reverse⟩

/-- Model of Go `strings.TrimPrefix(s, pre)`. -/
def goTrimLead (s pre : String) : String :=
  if goStarts s pre then ⟨s.toList.drop pre.toList.length⟩ else s

/-- Model of the Go byte-slice `s[1:]`, used by the extractors after a
`strings.HasPrefix(line, "|")` test (so the dropped byte is one ASCII char). -/
def goDropFirst (s : String) : String :=
  ⟨s.toList.drop 1⟩

/-- ASCII lower-casing of one character, as Go `strings.ToLower` acts on the
ASCII report text. -/
def goLowerChar (c : Char) : Char :=
  if 'A' ≤ c && c ≤ 'Z' then Char.ofNat (c.toNat + 32) else c

/-- Model of Go `strings.ToLower` on the ASCII report text. -/
def goToLower (s : String) : String :=
  ⟨s.toList.map goLowerChar⟩

/-- The five cell background color tags recognised by the engine. -/
def redTag : String := "\x7bset:cellbgcolor:#FF0000\x7d"

/-- Yellow tag: Changes Recommended. -/
def yellowTag : String := "\x7bset:cellbgcolor:#FEFE20\x7d"

/-- Light-blue tag: Advisory. -/
def blueTag : String := "\x7bset:cellbgcolor:#80E5FF\x7d"

/-- Green tag: No Change. -/
def greenTag : String := "\x7bset:cellbgcolor:#00FF00\x7d"

/-- Gray tag: Not Applicable. -/
def grayTag : String := "\x7bset:cellbgcolor:#A6B9BF\x7d"

/-- The unterminated tag fragment tested by the observation branch of the
extractors (`strings.Contains(line, "{set:cellbgcolor")` in the source). -/
def tagOpen : String := "\x7bset:cellbgcolor"

/-- The tag fragment tested by the status branch of the extractors
(`strings.Contains(line, "set:cellbgcolor:")`). -/
def tagMid : String := "set:cellbgcolor:"

/-- The item-block start marker comment. -/
def itemStartMark : String := "// ------------------------ITEM START"

/-- The item-block end marker comment. -/
def itemEndMark : String := "// ------------------------ITEM END"

/-- Locate the Summary heading: the Go loop
`if strings.TrimSpace(line) == "= Summary" { summaryStartIndex = i; break }`.
Returns the heading line and the lines after it, or `none` when the heading is
absent (`summaryStartIndex == -1`). -/
def findSummary : List String → Option (String × List String)
  | [] => none
  | l :: ls => if goTrim l == "= Summary" then some (l, ls) else findSummary ls

/-- The section-terminating test of the Summary end search: a line whose
trimmed form starts with `=` and that does not contain `= Summary`. -/
def isHeadingLine (l : String) : Bool :=
  goStarts (goTrim l) "=" && !goContains l "= Summary"

/-- Collect the lines of the Summary section after its heading: the Go loop
that sets `summaryEndIndex` to the first later line whose trimmed form starts
with `=` and that does not contain `= Summary`, or to the end of file. -/
def takeSummary : List String → List String
  | [] => []
  | l :: ls => if isHeadingLine l then [] else l :: takeSummary ls

/-- The five tallies returned by `CountAllStatusItems`. -/
structure StatusCounts where
  required : Nat
  recommended : Nat
  advisory : Nat
  noChange : Nat
  notApplicable : Nat
deriving DecidableEq, Repr

/-- The color-code tally chain of `CountAllStatusItems` (one `else if` per
recognised tag). -/
def bumpStatus (line : String) (c : StatusCounts) : StatusCounts :=
  if goContains line redTag then { c with required := c.required + 1 }
  else if goContains line yellowTag then { c with recommended := c.recommended + 1 }
  else if goContains line blueTag then { c with advisory := c.advisory + 1 }
  else if goContains line greenTag then { c with noChange := c.noChange + 1 }
  else if goContains line grayTag then { c with notApplicable := c.notApplicable + 1 }
  else c

/-- The scanning loop of `CountAllStatusItems` over the Summary slice, with
state `(inItem, inTable)`.  A second `|===` line ends the scan (`break` in the
source); header and legend rows inside the table are skipped; color tags are
tallied on table or item lines that do not contain `Description`. -/
def countAllLoop : List String → Bool → Bool → StatusCounts → StatusCounts
  | [], _, _, c => c
  | line :: rest, inItem, inTable, c =>
    if goContains line itemStartMark then countAllLoop rest true inTable c
    else if goContains line itemEndMark then countAllLoop rest false inTable c
    else if goContains line "|===" && !inTable then countAllLoop rest inItem true c
    else if goContains line "|===" && inTable then c
    else if inTable &&
        (goContains line "*Category*" ||
          goContains line "Indicates Changes Required" ||
          goContains line "Indicates Changes Recommended" ||
          goContains line "No advise given" ||
          goContains line "No change required" ||
          goContains line "Not yet evaluated") then
      countAllLoop rest inItem inTable c
    else if (inTable || inItem) && !goContains line "Description" then
      countAllLoop rest inItem inTable (bumpStatus line c)
    else countAllLoop rest inItem inTable c

/-- Model of `CountAllStatusItems`: zero tallies when no Summary heading
exists, otherwise the scan of the Summary slice (heading line included). -/
def countAllStatusItems (lines : List String) : StatusCounts :=
  match findSummary lines with
  | none => ⟨0, 0, 0, 0, 0⟩
  | some (h, rest) => countAllLoop (h :: takeSummary rest) false false ⟨0, 0, 0, 0, 0⟩

/-- Leftmost match of the cross-reference pattern `<<([^>]+)>>`: at each
position, the literal `<<`, then a maximal non-empty run of non-`>` characters
(the greedy `[^>]+`; a shorter run would be followed by a non-`>` character,
so taking the maximal run is equivalent to backtracking), then `>>`. -/
def xrefScan : List Char → Option (List Char)
  | [] => none
  | c :: rest =>
    if listStarts "<<".toList (c :: rest) then
      let body := (c :: rest).drop 2
      let run := body.takeWhile (fun d => !(d == '>'))
      if !run.isEmpty then
        match body.drop run.length with
        | '>' :: '>' :: _ => some run
        | _ => xrefScan rest
      else xrefScan rest
    else xrefScan rest

/-- The item-block scanning loop shared by `ExtractRequiredChanges`,
`ExtractRecommendedChanges` and `ExtractAdvisoryActions` (the three Go
functions are identical except for the color tag and legend phrase, which are
passed here as `tag` and `phrase`).  State: `(inItem, itemName, observation,
accumulated items)`. -/
def extLoop (tag phrase : String) :
    List String → Bool → String → String → List String → List String
  | [], _, _, _, acc => acc
  | line :: rest, inItem, itemName, observation, acc =>
    if goContains line itemStartMark then
      extLoop tag phrase rest true "" "" acc
    else if goContains line itemEndMark then
      let acc' :=
        if inItem && itemName != "" then
          let currentItem :=
            if observation != "" then itemName ++ ": " ++ observation else itemName
          if currentItem != "" then acc ++ [currentItem] else acc
        else acc
      extLoop tag phrase rest false itemName observation acc'
    else if !inItem then
      extLoop tag phrase rest inItem itemName observation acc
    else if goContains line "<<" && goContains line ">>" then
      let n := match xrefScan line.toList with
        | some g => goTrim ⟨g⟩
        | none => itemName
      extLoop tag phrase rest inItem n observation acc
    else if itemName != "" && observation == "" &&
        !goStarts line "//" && !goContains line tagOpen then
      let line' := if goStarts line "|" then goTrim (goDropFirst line) else line
      let observation' := if line' != "" then line' else observation
      extLoop tag phrase rest inItem itemName observation' acc
    else if goContains line tag && !goContains line phrase then
      extLoop tag phrase rest inItem itemName observation acc
    else if goContains line tagMid then
      extLoop tag phrase rest false itemName observation acc
    else extLoop tag phrase rest inItem itemName observation acc

/-- The common frame of the three extractors: empty result when no Summary
heading exists, otherwise the item-block scan of the Summary slice. -/
def extractItemBlocks (tag phrase : String) (lines : List String) : List String :=
  match findSummary lines with
  | none => []
  | some (h, rest) => extLoop tag phrase (h :: takeSummary rest) false "" "" []

/-- Model of `ExtractRequiredChanges` (Summary-sliced item-block revision). -/
def extractRequiredChanges (lines : List String) : List String :=
  extractItemBlocks redTag "Indicates Changes Required" lines

/-- Model of `ExtractRecommendedChanges`. -/
def extractRecommendedChanges (lines : List String) : List String :=
  extractItemBlocks yellowTag "Indicates Changes Recommended" lines

/-- Model of `ExtractAdvisoryActions`. -/
def extractAdvisoryActions (lines : List String) : List String :=
  extractItemBlocks blueTag "No advise given" lines

/-- The overall-score computation of `ParseAsciiDocExecutiveSummary`:
`weightedSum / totalValidItems` with weights NoChange=100, Advisory=80,
Recommended=50, Required=0, excluding Not Applicable items from the
denominator, and `0` when no valid items exist.  Go `float64` arithmetic is
modelled exactly by `ℚ`. -/
def overallScoreOf (lines : List String) : ℚ :=
  let c := countAllStatusItems lines
  let totalValidItems := c.required + c.recommended + c.advisory + c.noChange
  if 0 < totalValidItems then
    ((c.noChange * 100 + c.advisory * 80 + c.recommended * 50 : ℕ) : ℚ) / (totalValidItems : ℕ)
  else 0

/-- The per-category tallies of `CountStatusByCategory`; each Go
`map[string]int` is modelled by an association list (the only consumer,
`categoryItemCount`, sums over entries, so map iteration order is
irrelevant). -/
structure ItemsByCategory where
  required : List (String × Nat)
  recommended : List (String × Nat)
  advisory : List (String × Nat)
  noChange : List (String × Nat)
  notApplicable : List (String × Nat)
deriving DecidableEq, Repr

/-- The empty `ItemsByCategory`, as initialised by `CountStatusByCategory`. -/
def emptyItemsByCategory : ItemsByCategory := ⟨[], [], [], [], []⟩

/-- Go `result.X[currentCategory]++` on the association-list model of a
`map[string]int`. -/
def bumpAssoc : List (String × Nat) → String → List (String × Nat)
  | [], k => [(k, 1)]
  | (a, n) :: rest, k =>
    if a == k then (a, n + 1) :: rest else (a, n) :: bumpAssoc rest k

/-- The scanning loop of `CountStatusByCategory` over the Summary slice, with
state `(currentCategory, currentStatus, inTable)`.  Each line is trimmed
first; `|===` toggles `inTable`; a pipe cell without a color tag sets the
category; a color tag sets the status; when both are known and the line is not
a legend row, the `(category, status)` tally is bumped and the status reset. -/
def catLoop : List String → String → String → Bool → ItemsByCategory → ItemsByCategory
  | [], _, _, _, r => r
  | line0 :: rest, currentCategory, currentStatus, inTable, r =>
    let line := goTrim line0
    if goContains line "|===" then
      catLoop rest currentCategory currentStatus (!inTable) r
    else if !inTable then
      catLoop rest currentCategory currentStatus inTable r
    else if goStarts line "|" && !goContains line "cellbgcolor" then
      catLoop rest (goTrim (goTrimLead line "|")) currentStatus inTable r
    else
      let st :=
        if goContains line redTag then "required"
        else if goContains line yellowTag then "recommended"
        else if goContains line blueTag then "advisory"
        else if goContains line greenTag then "nochange"
        else if goContains line grayTag then "notapplicable"
        else currentStatus
      if currentCategory != "" && st != "" then
        if goContains line "Indicates Changes Required" ||
            goContains line "Indicates Changes Recommended" ||
            goContains line "No advise given" ||
            goContains line "No change required" ||
            goContains line "Not yet evaluated" then
          catLoop rest currentCategory "" inTable r
        else
          let r' :=
            if st == "required" then { r with required := bumpAssoc r.required currentCategory }
            else if st == "recommended" then { r with recommended := bumpAssoc r.recommended currentCategory }
            else if st == "advisory" then { r with advisory := bumpAssoc r.advisory currentCategory }
            else if st == "nochange" then { r with noChange := bumpAssoc r.noChange currentCategory }
            else if st == "notapplicable" then { r with notApplicable := bumpAssoc r.notApplicable currentCategory }
            else r
          catLoop rest currentCategory "" inTable r'
      else catLoop rest currentCategory st inTable r

/-- Model of `CountStatusByCategory`. -/
def countStatusByCategory (lines : List String) : ItemsByCategory :=
  match findSummary lines with
  | none => emptyItemsByCategory
  | some (h, rest) => catLoop (h :: takeSummary rest) "" "" false emptyItemsByCategory

/-- Model of the `categoryItemCount` helper of `ParseAsciiDocExecutiveSummary`:
sum the tallies of the map entries whose key contains `category`. -/
def categoryItemCount : List (String × Nat) → String → Nat
  | [], _ => 0
  | (k, c) :: rest, category =>
    (if goContains k category then c else 0) + categoryItemCount rest category

/-- Model of `CalculateCategoryScore` on the four tallies the caller stores
under the keys `required`, `recommended`, `advisory`, `nochange`.  The Go
`int(weightedSum / float64(totalItems))` truncation of the nonnegative exact
`float64` quotient is ℕ floor division. -/
def calculateCategoryScore (required recommended advisory noChange : Nat) : Nat :=
  let totalItems := required + recommended + advisory + noChange
  if totalItems = 0 then 0
  else (noChange * 100 + advisory * 80 + recommended * 50) / totalItems

/-- Numeric value of a digit run, as Go `strconv.Atoi` on a `\d+` capture. -/
def digitsVal (ds : List Char) : Nat :=
  ds.foldl (fun n c => n * 10 + (c.toNat - 48)) 0

/-- The white-space class `\s` of Go regexps (`[\t\n\f\r ]`). -/
def isRegexSpace (c : Char) : Bool :=
  c == '\t' || c == '\n' || c == '\x0c' || c == '\r' || c == ' '

/-- Leftmost match of the Go regexp `(\d+)%`: at each position, a maximal
non-empty digit run (equivalent to the greedy `\d+` with backtracking, since a
shorter run is followed by a digit, not `%`) followed by `%`. -/
def findPercent : List Char → Option Nat
  | [] => none
  | c :: rest =>
    if c.isDigit then
      let run := (c :: rest).takeWhile Char.isDigit
      match (c :: rest).drop run.length with
      | '%' :: _ => some (digitsVal run)
      | _ => findPercent rest
    else findPercent rest

/-- Leftmost match of the `ExtractCategoryScore` regexp
`\*<name>\*:\s+(\d+)%`, given `pat = "*<name>*:"`: the literal pattern, at
least one regexp space, a maximal digit run, then `%`. -/
def catScoreScan (pat : List Char) : List Char → Option Nat
  | [] => none
  | c :: rest =>
    if listStarts pat (c :: rest) then
      let r1 := (c :: rest).drop pat.length
      let sp := r1.takeWhile isRegexSpace
      let r2 := r1.drop sp.length
      let ds := r2.takeWhile Char.isDigit
      if !sp.isEmpty && !ds.isEmpty then
        match r2.drop ds.length with
        | '%' :: _ => some (digitsVal ds)
        | _ => catScoreScan pat rest
      else catScoreScan pat rest
    else catScoreScan pat rest

/-- Model of Go `strings.Split(s, " ")`, used by `ExtractCategoryScore` to
turn the category name into keywords. -/
def splitChAux : List Char → List Char → List String
  | [], acc => [⟨acc.reverse⟩]
  | c :: rest, acc =>
    if c == ' ' then ⟨acc.reverse⟩ :: splitChAux rest []
    else splitChAux rest (c :: acc)

/-- Split a string on single spaces. -/
def splitOnSpace (s : String) : List String :=
  splitChAux s.toList []

/-- Model of `ExtractGeneralCategoryScore` (the revision whose default score
is `0`): the first line containing any lower-cased keyword and a `(\d+)%`
match yields that number. -/
def extractGeneralCategoryScore : List String → List String → Nat
  | [], _ => 0
  | line :: rest, keywords =>
    if keywords.any (fun k => goContains (goToLower line) (goToLower k)) then
      match findPercent line.toList with
      | some n => n
      | none => extractGeneralCategoryScore rest keywords
    else extractGeneralCategoryScore rest keywords

/-- The first line of `lines` matching the `ExtractCategoryScore` pattern. -/
def extractCategoryScoreAux (pat : List Char) : List String → Option Nat
  | [] => none
  | line :: rest =>
    match catScoreScan pat line.toList with
    | some n => some n
    | none => extractCategoryScoreAux pat rest

/-- Model of `ExtractCategoryScore`: the exact `\*<name>\*:\s+(\d+)%` match,
falling back to keyword search on the space-split category name. -/
def extractCategoryScore (lines : List String) (categoryName : String) : Nat :=
  match extractCategoryScoreAux ("*" ++ categoryName ++ "*:").toList lines with
  | some n => n
  | none => extractGeneralCategoryScore lines (splitOnSpace categoryName)

/-- The `ScoreInfra` field of `ParseAsciiDocExecutiveSummary`: the category
score calculated from the `Cluster Config` tallies of
`CountStatusByCategory`, falling back to `ExtractCategoryScore(lines,
"Infrastructure Setup")` when that is `0`. -/
def scoreInfra (lines : List String) : Nat :=
  let cats := countStatusByCategory lines
  let s := calculateCategoryScore
    (categoryItemCount cats.required "Cluster Config")
    (categoryItemCount cats.recommended "Cluster Config")
    (categoryItemCount cats.advisory "Cluster Config")
    (categoryItemCount cats.noChange "Cluster Config")
  if s = 0 then extractCategoryScore lines "Infrastructure Setup" else s

/-- The `ItemsRequired` field of `ParseAsciiDocExecutiveSummary`: the
extracted items, or `required`-many placeholder strings when extraction found
nothing but the tally is positive. -/
def itemsRequiredOf (lines : List String) : List String :=
  let required := (countAllStatusItems lines).required
  let items := extractRequiredChanges lines
  if items = [] ∧ 0 < required then
    (List.range required).map (fun i => "Required Item " ++ toString (i + 1))
  else items

/-- The `ItemsRecommended` field of `ParseAsciiDocExecutiveSummary`. -/
def itemsRecommendedOf (lines : List String) : List String :=
  let recommended := (countAllStatusItems lines).recommended
  let items := extractRecommendedChanges lines
  if items = [] ∧ 0 < recommended then
    (List.range recommended).map (fun i => "Recommended Item " ++ toString (i + 1))
  else items

/-- The `ItemsAdvisory` field of `ParseAsciiDocExecutiveSummary`. -/
def itemsAdvisoryOf (lines : List String) : List String :=
  let advisory := (countAllStatusItems lines).advisory
  let items := extractAdvisoryActions lines
  if items = [] ∧ 0 < advisory then
    (List.range advisory).map (fun i => "Advisory Item " ++ toString (i + 1))
  else items

/-- Model of `GenerateDescription` (the revision used alongside
`CountAllStatusItems`): banded sentences for positive scores, the empty
string for scores `≤ 0` (its final `return ""`). -/
def generateDescription (categoryName : String) (score : Int) : String :=
  if score ≥ 90 then categoryName ++ " is excellent with best practices in place."
  else if score ≥ 80 then categoryName ++ " is well-configured with only minor improvements needed."
  else if score ≥ 70 then categoryName ++ " meets most requirements but has some areas that could be improved."
  else if score ≥ 60 then categoryName ++ " has several areas that need attention to meet best practices."
  else if score > 0 then categoryName ++ " requires significant improvements to ensure stability and security."
  else ""

/-- The apostrophe character, written by code point to keep the source plain. -/
def squote : Char := Char.ofNat 39

/-- The word class `[a-zA-Z0-9_-]` of the cluster-name regexp. -/
def isWordCh (c : Char) : Bool :=
  ('a' ≤ c && c ≤ 'z') || ('A' ≤ c && c ≤ 'Z') || c.isDigit || c == '_' || c == '-'

/-- First alternative of the cluster-name regexp
`['"]([^'"]+)['"]`: an opening quote of either kind, a maximal non-empty run
of non-quote characters, and a closing quote of either kind. -/
def clusterAlt1 : List Char → Option (List Char)
  | [] => none
  | c :: rest =>
    if c == squote || c == '"' then
      let run := rest.takeWhile (fun d => !(d == squote || d == '"'))
      if !run.isEmpty then
        match rest.drop run.length with
        | d :: _ => if d == squote || d == '"' then some run else none
        | [] => none
      else none
    else none

/-- Second alternative of the cluster-name regexp `cluster\s+([a-zA-Z0-9_-]+)`:
the literal `cluster`, at least one regexp space, and a maximal non-empty word
run. -/
def clusterAlt2 (cs : List Char) : Option (List Char) :=
  if listStarts "cluster".toList cs then
    let rest := cs.drop 7
    let sp := rest.takeWhile isRegexSpace
    if !sp.isEmpty then
      let run := (rest.drop sp.length).takeWhile isWordCh
      if !run.isEmpty then some run else none
    else none
  else none

/-- Leftmost-first match of the cluster-name regexp: at each position try the
quoted alternative, then the `cluster<space>ident` alternative.  The Go caller
returns whichever capture group is non-empty. -/
def clusterScan : List Char → Option String
  | [] => none
  | c :: rest =>
    match clusterAlt1 (c :: rest) with
    | some g => some ⟨g⟩
    | none =>
      match clusterAlt2 (c :: rest) with
      | some g => some ⟨g⟩
      | none => clusterScan rest

/-- Model of `ExtractClusterName` (the revision used alongside
`CountAllStatusItems`): the first regexp capture on a line containing
`cluster`, or the empty string. -/
def extractClusterName : List String → String
  | [] => ""
  | line :: rest =>
    if goContains line "cluster" then
      match clusterScan line.toList with
      | some g => g
      | none => extractClusterName rest
    else extractClusterName rest

/-- The capture class `[A-Za-z0-9_\s]` of the customer-name regexp. -/
def isCustCh (c : Char) : Bool :=
  ('a' ≤ c && c ≤ 'z') || ('A' ≤ c && c ≤ 'Z') || c.isDigit || c == '_' || isRegexSpace c

/-- The lazy tail of the customer-name regexp `.*?([A-Za-z0-9_\s]+)'s`: try
each successive start position for a maximal non-empty capture-class run that
is followed by an apostrophe and `s`. -/
def custGroup : List Char → Option (List Char)
  | [] => none
  | c :: rest =>
    let run := (c :: rest).takeWhile isCustCh
    if !run.isEmpty then
      match (c :: rest).drop run.length with
      | q :: s :: _ =>
        if q == squote && s == 's' then some run else custGroup rest
      | _ => custGroup rest
    else custGroup rest

/-- Leftmost match of the customer-name regexp
`conducted.*?([A-Za-z0-9_\s]+)'s`: at each occurrence of the literal
`conducted`, search the remainder for the capture. -/
def custScan : List Char → Option (List Char)
  | [] => none
  | c :: rest =>
    if listStarts "conducted".toList (c :: rest) then
      match custGroup ((c :: rest).drop 9) with
      | some g => some g
      | none => custScan rest
    else custScan rest

/-- Model of `ExtractCustomerName` (the revision used alongside
`CountAllStatusItems`): the trimmed regexp capture on a line containing both
`conducted` and `health check`, or the empty string. -/
def extractCustomerName : List String → String
  | [] => ""
  | line :: rest =>
    if goContains line "conducted" && goContains line "health check" then
      match custScan line.toList with
      | some g => goTrim ⟨g⟩
      | none => extractCustomerName rest
    else extractCustomerName rest

/-- Model of `IsValidAsciiDocFile`. -/
def isValidAsciiDocFile (filename : String) : Bool :=
  goEnds filename ".adoc" || goEnds filename ".asciidoc"

/-- The four non-NotApplicable tallies of a `StatusCounts`, the data the
overall score is computed from. -/
def fourOf (c : StatusCounts) : Nat × Nat × Nat × Nat :=
  (c.required, c.recommended, c.advisory, c.noChange)

/-- A NotApplicable data row of the Summary table: it carries the gray color
tag and none of the other four tags, is not a table delimiter, not an item
marker and not a section heading. -/
def isGrayRow (l : String) : Prop :=
  goContains l grayTag = true ∧
  goContains l redTag = false ∧ goContains l yellowTag = false ∧
  goContains l blueTag = false ∧ goContains l greenTag = false ∧
  goContains l "|===" = false ∧
  goContains l itemStartMark = false ∧ goContains l itemEndMark = false ∧
  isHeadingLine l = false

instance (l : String) : Decidable (isGrayRow l) := by
  unfold isGrayRow; infer_instance

/-- Specification-level band function for the description generator, written
from the amended claim: the empty string for scores `≤ 0` and the five fixed
band sentences otherwise. -/
def descriptionBands (categoryName : String) (score : Int) : String :=
  if score ≤ 0 then ""
  else if score < 60 then categoryName ++ " requires significant improvements to ensure stability and security."
  else if score < 70 then categoryName ++ " has several areas that need attention to meet best practices."
  else if score < 80 then categoryName ++ " meets most requirements but has some areas that could be improved."
  else if score < 90 then categoryName ++ " is well-configured with only minor improvements needed."
  else categoryName ++ " is excellent with best practices in place."

/-- A Summary table with exactly one item of each counted status. -/
def fourItemDoc : List String :=
  ["= Summary", "|===",
   "|Remove kubeadmin \x7bset:cellbgcolor:#FF0000\x7d",
   "|Network policy \x7bset:cellbgcolor:#FEFE20\x7d",
   "|Image pruning \x7bset:cellbgcolor:#80E5FF\x7d",
   "|Node health \x7bset:cellbgcolor:#00FF00\x7d"]

/-- One complete red-tagged item block named `Foo`. -/
def requiredBlock : List String :=
  ["// ------------------------ITEM START", "<<Foo>>",
   "|kubeadmin account still present",
   "|\x7bset:cellbgcolor:#FF0000\x7d",
   "// ------------------------ITEM END"]

/-- `n` copies of `requiredBlock` in sequence. -/
def repeatBlocks : Nat → List String
  | 0 => []
  | n + 1 => requiredBlock ++ repeatBlocks n

/-- One item block with a name and an observation but no color tag at all. -/
def untaggedBlockDoc : List String :=
  ["= Summary", "// ------------------------ITEM START", "<<Foo>>",
   "|obs text", "// ------------------------ITEM END"]

/-- A document with a tagged table row but no Summary heading. -/
def noSummaryDoc : List String :=
  ["|===", "|Remove kubeadmin \x7bset:cellbgcolor:#FF0000\x7d", "|==="]

/-- A document with a Summary heading but no recognisable item at all. -/
def plainDoc : List String :=
  ["= Summary", "nothing recognised here"]

/-!  Supporting lemmas. -/

theorem listStarts_iff (p s : List Char) : listStarts p s = true ↔ ∃ t, s = p ++ t := by
  induction p generalizing s with
  | nil => simp [listStarts]
  | cons a ps ih =>
    cases s with
    | nil =>
      simp only [listStarts, List.cons_append, Bool.false_eq_true, false_iff]
      rintro ⟨t, ht⟩
      cases ht
    | cons b bs =>
      simp only [listStarts, Bool.and_eq_true, beq_iff_eq, ih, List.cons_append]
      constructor
      · rintro ⟨rfl, t, rfl⟩
        exact ⟨t, rfl⟩
      · rintro ⟨t, ht⟩
        injection ht with h1 h2
        exact ⟨h1.symm, t, h2⟩

theorem strContains_iff (pat s : List Char) :
    strContains pat s = true ↔ ∃ u v, s = u ++ pat ++ v := by
  induction s with
  | nil =>
    simp only [strContains, listStarts_iff]
    constructor
    · rintro ⟨t, ht⟩
      exact ⟨[], t, ht⟩
    · rintro ⟨u, v, huv⟩
      cases u with
      | nil => exact ⟨v, huv⟩
      | cons d ds => cases huv
  | cons c cs ih =>
    simp only [strContains, Bool.or_eq_true, listStarts_iff, ih]
    constructor
    · rintro (⟨t, ht⟩ | ⟨u, v, huv⟩)
      · exact ⟨[], t, ht⟩
      · exact ⟨c :: u, v, by simp [huv]⟩
    · rintro ⟨u, v, huv⟩
      cases u with
      | nil => exact Or.inl ⟨v, by simpa using huv⟩
      | cons d ds =>
        injection huv with h1 h2
        exact Or.inr ⟨ds, v, h2⟩

theorem goContains_of_sub {l big small : String}
    (hsub : strContains small.toList big.toList = true)
    (h : goContains l big = true) : goContains l small = true := by
  rw [goContains, strContains_iff] at h ⊢
  rw [strContains_iff] at hsub
  obtain ⟨u, v, hl⟩ := h
  obtain ⟨x, y, hbig⟩ := hsub
  refine ⟨u ++ x, y ++ v, ?_⟩
  simp only [String.toList] at *
  rw [hl, hbig]
  simp

theorem goContains_false_of_sub {l big small : String}
    (hsub : strContains small.toList big.toList = true)
    (h : goContains l small = false) : goContains l big = false := by
  cases hx : goContains l big with
  | false => rfl
  | true =>
    have := goContains_of_sub hsub hx
    simp [h] at this

theorem bumpStatus_of_no_tag {line : String} (h : goContains line tagOpen = false)
    (c : StatusCounts) : bumpStatus line c = c := by
  have hr : goContains line redTag = false := goContains_false_of_sub (by decide) h
  have hy : goContains line yellowTag = false := goContains_false_of_sub (by decide) h
  have hb : goContains line blueTag = false := goContains_false_of_sub (by decide) h
  have hg : goContains line greenTag = false := goContains_false_of_sub (by decide) h
  have hn : goContains line grayTag = false := goContains_false_of_sub (by decide) h
  simp [bumpStatus, hr, hy, hb, hg, hn]

theorem mem_of_mem_takeSummary {l : String} : ∀ {ls : List String}, l ∈ takeSummary ls → l ∈ ls := by
  intro ls
  induction ls with
  | nil => simp [takeSummary]
  | cons x xs ih =>
    simp only [takeSummary]
    split_ifs with h
    · intro hmem
      cases hmem
    · intro hmem
      rcases List.mem_cons.mp hmem with h1 | h2
      · exact h1 ▸ List.mem_cons_self x xs
      · exact List.mem_cons_of_mem x (ih h2)

theorem findSummary_mem {lines : List String} {h : String} {rest : List String}
    (hf : findSummary lines = some (h, rest)) :
    h ∈ lines ∧ ∀ x ∈ rest, x ∈ lines := by
  induction lines with
  | nil => cases hf
  | cons l ls ih =>
    rw [findSummary] at hf
    split_ifs at hf with hcond
    · injection hf with hf'
      injection hf' with h1 h2
      subst h1; subst h2
      exact ⟨List.mem_cons_self l ls, fun x hx => List.mem_cons_of_mem l hx⟩
    · obtain ⟨hm, hrest⟩ := ih hf
      exact ⟨List.mem_cons_of_mem l hm, fun x hx => List.mem_cons_of_mem l (hrest x hx)⟩

theorem findSummary_none {lines : List String}
    (h : ∀ l ∈ lines, goTrim l ≠ "= Summary") : findSummary lines = none := by
  induction lines with
  | nil => rfl
  | cons l ls ih =>
    have h1 : (goTrim l == "= Summary") = false :=
      beq_eq_false_iff_ne.mpr (h l (List.mem_cons_self l ls))
    simp only [findSummary, h1, Bool.false_eq_true, if_false]
    exact ih (fun x hx => h x (List.mem_cons_of_mem l hx))

theorem findSummary_append {pre : List String} {hd : String} (rest : List String)
    (hpre : ∀ l ∈ pre, goTrim l ≠ "= Summary") (hhd : goTrim hd = "= Summary") :
    findSummary (pre ++ hd :: rest) = some (hd, rest) := by
  induction pre with
  | nil => simp [findSummary, hhd]
  | cons l ls ih =>
    have h1 : (goTrim l == "= Summary") = false :=
      beq_eq_false_iff_ne.mpr (hpre l (List.mem_cons_self l ls))
    simp only [List.cons_append, findSummary, h1, Bool.false_eq_true, if_false]
    exact ih (fun x hx => hpre x (List.mem_cons_of_mem l hx))

theorem takeSummary_append {xs : List String} (ys : List String)
    (hxs : ∀ l ∈ xs, isHeadingLine l = false) :
    takeSummary (xs ++ ys) = xs ++ takeSummary ys := by
  induction xs with
  | nil => rfl
  | cons l ls ih =>
    have h1 := hxs l (List.mem_cons_self l ls)
    simp only [List.cons_append, takeSummary, h1, Bool.false_eq_true, if_false,
      List.cons.injEq, true_and]
    exact ih (fun x hx => hxs x (List.mem_cons_of_mem l hx))

theorem countAllLoop_of_no_tags {ls : List String}
    (hl : ∀ l ∈ ls, goContains l tagOpen = false) :
    ∀ inItem inTable c, countAllLoop ls inItem inTable c = c := by
  induction ls with
  | nil => intro _ _ _; rfl
  | cons l ls ih =>
    intro inItem inTable c
    have h0 := hl l (List.mem_cons_self l ls)
    have hrest := fun x hx => hl x (List.mem_cons_of_mem l hx)
    simp only [countAllLoop]
    rw [bumpStatus_of_no_tag h0]
    split_ifs <;> first | rfl | exact ih hrest _ _ _

theorem countAllStatusItems_of_no_tags {lines : List String}
    (h : ∀ l ∈ lines, goContains l tagOpen = false) :
    countAllStatusItems lines = ⟨0, 0, 0, 0, 0⟩ := by
  unfold countAllStatusItems
  cases hf : findSummary lines with
  | none => rfl
  | some p =>
    obtain ⟨hd, rest⟩ := p
    obtain ⟨hmem, hrest⟩ := findSummary_mem hf
    apply countAllLoop_of_no_tags
    intro l hl
    rcases List.mem_cons.mp hl with rfl | hl2
    · exact h l hmem
    · exact h l (hrest l (mem_of_mem_takeSummary hl2))

theorem extLoop_of_no_marks (tag phrase : String) {ls : List String}
    (hl : ∀ l ∈ ls, goContains l itemStartMark = false) :
    ∀ itemName observation acc, extLoop tag phrase ls false itemName observation acc = acc := by
  induction ls with
  | nil => intro _ _ _; rfl
  | cons l ls ih =>
    intro itemName observation acc
    have h0 := hl l (List.mem_cons_self l ls)
    have hrest := fun x hx => hl x (List.mem_cons_of_mem l hx)
    cases hE : goContains l itemEndMark with
    | true =>
      simp only [extLoop, h0, hE, Bool.false_eq_true, if_false, if_true,
        Bool.false_and, Bool.not_false]
      exact ih hrest _ _ _
    | false =>
      simp only [extLoop, h0, hE, Bool.false_eq_true, if_false, Bool.not_false, if_true]
      exact ih hrest _ _ _

theorem extractItemBlocks_of_no_marks (tag phrase : String) {lines : List String}
    (h : ∀ l ∈ lines, goContains l itemStartMark = false) :
    extractItemBlocks tag phrase lines = [] := by
  unfold extractItemBlocks
  cases hf : findSummary lines with
  | none => rfl
  | some p =>
    obtain ⟨hd, rest⟩ := p
    obtain ⟨hmem, hrest⟩ := findSummary_mem hf
    apply extLoop_of_no_marks
    intro l hl
    rcases List.mem_cons.mp hl with rfl | hl2
    · exact h l hmem
    · exact h l (hrest l (mem_of_mem_takeSummary hl2))

theorem ratio_bounds (r rec adv nc : ℕ) (h : 0 < r + rec + adv + nc) :
    0 ≤ ((nc * 100 + adv * 80 + rec * 50 : ℕ) : ℚ) / ((r + rec + adv + nc : ℕ) : ℚ) ∧
      ((nc * 100 + adv * 80 + rec * 50 : ℕ) : ℚ) / ((r + rec + adv + nc : ℕ) : ℚ) ≤ 100 := by
  have hd : (0 : ℚ) < ((r + rec + adv + nc : ℕ) : ℚ) := by exact_mod_cast h
  constructor
  · positivity
  · rw [div_le_iff₀ hd]
    push_cast
    have h1 : (0 : ℚ) ≤ (r : ℚ) := Nat.cast_nonneg r
    have h2 : (0 : ℚ) ≤ (rec : ℚ) := Nat.cast_nonneg rec
    have h3 : (0 : ℚ) ≤ (adv : ℚ) := Nat.cast_nonneg adv
    linarith

/-!  Claim theorems. -/

/-- C1: the overall score is the weighted mean over counted items with
weights Required=0, Recommended=50, Advisory=80, NoChange=100 and the number
of non-NotApplicable items as denominator; in particular a Summary yielding
exactly one item of each counted status scores `57.5`. -/
theorem overallScore_of_one_each (lines : List String) (na : Nat)
    (h : countAllStatusItems lines = ⟨1, 1, 1, 1, na⟩) :
    overallScoreOf lines = 115 / 2 := by
  simp only [overallScoreOf, h]
  norm_num

/-- Witness for C1: a concrete Summary table with one item of each counted
status evaluates to `57.5`. -/
theorem overallScore_of_one_each_witness :
    countAllStatusItems fourItemDoc = ⟨1, 1, 1, 1, 0⟩ ∧
      overallScoreOf fourItemDoc = 115 / 2 :=
  ⟨by decide, overallScore_of_one_each fourItemDoc 0 (by decide)⟩

/-- C5 counterexample: no clamping exists — a document whose only content is
an inline `150%` next to the Infrastructure Setup heading makes the returned
`ScoreInfra` field equal to `150`, outside `[0,100]`. -/
theorem scoreInfra_unclamped_150 :
    scoreInfra ["*Infrastructure Setup*: 150%"] = 150 ∧
      100 < scoreInfra ["*Infrastructure Setup*: 150%"] := by
  exact ⟨by decide, by decide⟩

/-- C5 (amended): the overall score is always within `[0,100]` (it is a
weighted mean of weights at most 100, or 0), although the category scores are
returned without clamping. -/
theorem overallScoreOf_bounds (lines : List String) :
    0 ≤ overallScoreOf lines ∧ overallScoreOf lines ≤ 100 := by
  simp only [overallScoreOf]
  split_ifs with h
  · exact ratio_bounds _ _ _ _ h
  · norm_num

/-- C6: for a document in which no item is recognisable (no color tag and no
item-start marker anywhere), the overall score is `0` and all three item
arrays are empty. -/
theorem no_items_zero_score_empty_arrays (lines : List String)
    (h : ∀ l ∈ lines, goContains l tagOpen = false ∧ goContains l itemStartMark = false) :
    overallScoreOf lines = 0 ∧ itemsRequiredOf lines = [] ∧
      itemsRecommendedOf lines = [] ∧ itemsAdvisoryOf lines = [] := by
  have hc : countAllStatusItems lines = ⟨0, 0, 0, 0, 0⟩ :=
    countAllStatusItems_of_no_tags (fun l hl => (h l hl).1)
  have hm : ∀ l ∈ lines, goContains l itemStartMark = false := fun l hl => (h l hl).2
  refine ⟨?_, ?_, ?_, ?_⟩
  · simp [overallScoreOf, hc]
  · simp [itemsRequiredOf, hc, extractRequiredChanges, extractItemBlocks_of_no_marks _ _ hm]
  · simp [itemsRecommendedOf, hc, extractRecommendedChanges, extractItemBlocks_of_no_marks _ _ hm]
  · simp [itemsAdvisoryOf, hc, extractAdvisoryActions, extractItemBlocks_of_no_marks _ _ hm]

/-- Witness for C6 on a concrete document with no recognisable item. -/
theorem no_items_zero_score_empty_arrays_witness :
    overallScoreOf plainDoc = 0 ∧ itemsRequiredOf plainDoc = [] ∧
      itemsRecommendedOf plainDoc = [] ∧ itemsAdvisoryOf plainDoc = [] :=
  no_items_zero_score_empty_arrays plainDoc (by decide)

/-- C7 counterexample: without a Summary heading the status counter returns
zero counts outright — the very same table content is counted once the
heading is present, so no whole-document degraded mode exists here. -/
theorem no_summary_zero_counts :
    countAllStatusItems noSummaryDoc = ⟨0, 0, 0, 0, 0⟩ ∧
      countAllStatusItems ("= Summary" :: noSummaryDoc) = ⟨1, 0, 0, 0, 0⟩ := by
  exact ⟨by decide, by decide⟩

/-- C7 (amended): when no line of the document trims to `= Summary`, the
status counter returns all-zero counts. -/
theorem countAllStatusItems_no_summary (lines : List String)
    (h : ∀ l ∈ lines, goTrim l ≠ "= Summary") :
    countAllStatusItems lines = ⟨0, 0, 0, 0, 0⟩ := by
  unfold countAllStatusItems
  rw [findSummary_none h]

/-- Witness for the amended C7. -/
theorem countAllStatusItems_no_summary_witness :
    countAllStatusItems ["|===", "|some text"] = ⟨0, 0, 0, 0, 0⟩ :=
  countAllStatusItems_no_summary _ (by decide)

/-- C8 counterexample: at score `0` the description generator returns the
empty string, not the `requires significant improvements` sentence the claim
asserts for every score below 60. -/
theorem generateDescription_zero_empty :
    generateDescription "Infrastructure Setup" 0 = "" ∧
      generateDescription "Infrastructure Setup" 0 ≠
        "Infrastructure Setup requires significant improvements to ensure stability and security." := by
  exact ⟨by decide, by decide⟩

/-- C8 (amended): the description generator is the pure band function that
returns the `excellent` sentence for scores ≥ 90, the `well-configured`
sentence on `[80,90)`, the `meets most requirements` sentence on `[70,80)`,
the `needs attention` sentence on `[60,70)`, the `requires significant
improvements` sentence on `(0,60)`, and the empty string for scores ≤ 0. -/
theorem generateDescription_eq_bands (categoryName : String) (score : Int) :
    generateDescription categoryName score = descriptionBands categoryName score := by
  unfold generateDescription descriptionBands
  split_ifs <;> first | rfl | omega

/-- C9 counterexample: on a document matching no metadata pattern both
extractors return the empty string — there is no literal fallback. -/
theorem metadata_empty_on_no_match :
    extractClusterName ["hello world"] = "" ∧ extractCustomerName ["hello world"] = "" := by
  exact ⟨by decide, by decide⟩

/-- C9 (amended): the metadata extractors are total but return the empty
string whenever no line carries their trigger keyword, so the cluster and
customer names may be unpopulated. -/
theorem metadata_empty_when_keywords_absent (lines : List String)
    (h : ∀ l ∈ lines, goContains l "cluster" = false ∧ goContains l "conducted" = false) :
    extractClusterName lines = "" ∧ extractCustomerName lines = "" := by
  induction lines with
  | nil => exact ⟨rfl, rfl⟩
  | cons l ls ih =>
    obtain ⟨h1, h2⟩ := h l (List.mem_cons_self l ls)
    obtain ⟨ihc, ihm⟩ := ih (fun x hx => h x (List.mem_cons_of_mem l hx))
    constructor
    · simp [extractClusterName, h1, ihc]
    · simp [extractCustomerName, h2, ihm]

/-- Witness for the amended C9. -/
theorem metadata_empty_when_keywords_absent_witness :
    extractClusterName ["no matching patterns at all"] = "" ∧
      extractCustomerName ["no matching patterns at all"] = "" :=
  metadata_empty_when_keywords_absent _ (by decide)

theorem goEnds_iff (s suf : String) : goEnds s suf = true ↔ ∃ t : String, s = t ++ suf := by
  unfold goEnds
  rw [listStarts_iff]
  constructor
  · rintro ⟨t, ht⟩
    refine ⟨⟨t.reverse⟩, ?_⟩
    have hs : s.toList = t.reverse ++ suf.toList := by
      have h2 := congrArg List.reverse ht
      simpa using h2
    cases s with
    | mk d =>
      cases suf with
      | mk sd =>
        exact congrArg String.mk hs
  · rintro ⟨t, rfl⟩
    refine ⟨t.toList.reverse, ?_⟩
    cases t with
    | mk td =>
      cases suf with
      | mk sd =>
        simp [String.toList]

/-- C10: the upload check accepts a filename exactly when it ends with the
literal suffix `.adoc` or `.asciidoc`; the comparison is case-sensitive. -/
theorem isValidAsciiDocFile_iff_suffix (f : String) :
    isValidAsciiDocFile f = true ↔
      ∃ s : String, f = s ++ ".adoc" ∨ f = s ++ ".asciidoc" := by
  unfold isValidAsciiDocFile
  rw [Bool.or_eq_true, goEnds_iff, goEnds_iff]
  constructor
  · rintro (⟨t, rfl⟩ | ⟨t, rfl⟩)
    · exact ⟨t, Or.inl rfl⟩
    · exact ⟨t, Or.inr rfl⟩
  · rintro ⟨t, rfl | rfl⟩
    · exact Or.inl ⟨t, rfl⟩
    · exact Or.inr ⟨t, rfl⟩

/-- Witness for C10: `report.adoc` is accepted, while the upper-case
`report.ADOC` and a foreign extension are rejected. -/
theorem isValidAsciiDocFile_iff_suffix_witness :
    isValidAsciiDocFile "report.ADOC" = false ∧ isValidAsciiDocFile "report.txt" = false ∧
      ∃ s : String, ("report.adoc" : String) = s ++ ".adoc" ∨
        ("report.adoc" : String) = s ++ ".asciidoc" :=
  ⟨by decide, by decide, (isValidAsciiDocFile_iff_suffix "report.adoc").mp (by decide)⟩

theorem extLoop_requiredBlock (rest : List String) (itemName observation : String)
    (acc : List String) :
    extLoop redTag "Indicates Changes Required" (requiredBlock ++ rest)
        false itemName observation acc
      = extLoop redTag "Indicates Changes Required" rest
        false "Foo" "kubeadmin account still present"
        (acc ++ ["Foo: kubeadmin account still present"]) := rfl

theorem takeSummary_requiredBlock (rest : List String) :
    takeSummary (requiredBlock ++ rest) = requiredBlock ++ takeSummary rest := rfl

theorem takeSummary_repeatBlocks (n : Nat) :
    takeSummary (repeatBlocks n) = repeatBlocks n := by
  induction n with
  | zero => rfl
  | succ n ih => rw [repeatBlocks, takeSummary_requiredBlock, ih]

theorem extLoop_repeatBlocks (n : Nat) :
    ∀ itemName observation acc,
      extLoop redTag "Indicates Changes Required" (repeatBlocks n)
          false itemName observation acc
        = acc ++ List.replicate n "Foo: kubeadmin account still present" := by
  induction n with
  | zero => intro _ _ acc; simp [repeatBlocks, extLoop]
  | succ n ih =>
    intro itemName observation acc
    rw [repeatBlocks, extLoop_requiredBlock, ih]
    simp [List.replicate_succ]

/-- C3 counterexample: two item blocks with the same item name `Foo` and the
same Required status yield two identical entries, not one — no
deduplication. -/
theorem duplicate_blocks_not_deduplicated :
    extractRequiredChanges ("= Summary" :: repeatBlocks 2)
        = ["Foo: kubeadmin account still present", "Foo: kubeadmin account still present"] ∧
      (extractRequiredChanges ("= Summary" :: repeatBlocks 2)).length = 2 := by
  exact ⟨by decide, by decide⟩

/-- C3 (amended): extraction appends one entry per completed item block in
document order with no deduplication: `n` copies of the same Required block
produce `n` identical entries. -/
theorem extractRequiredChanges_replicate (n : Nat) :
    extractRequiredChanges ("= Summary" :: repeatBlocks n)
      = List.replicate n "Foo: kubeadmin account still present" := by
  have h1 : extractRequiredChanges ("= Summary" :: repeatBlocks n)
      = extLoop redTag "Indicates Changes Required"
        ("= Summary" :: takeSummary (repeatBlocks n)) false "" "" [] := rfl
  rw [h1, takeSummary_repeatBlocks]
  rw [show ∀ rest acc, extLoop redTag "Indicates Changes Required"
        ("= Summary" :: rest) false "" "" acc
      = extLoop redTag "Indicates Changes Required" rest false "" "" acc
    from fun _ _ => rfl]
  rw [extLoop_repeatBlocks]
  simp

theorem extLoop_mem_ne_empty (tag phrase : String) {ls : List String} :
    ∀ inItem itemName observation acc, (∀ x ∈ acc, x ≠ "") →
      ∀ s ∈ extLoop tag phrase ls inItem itemName observation acc, s ≠ "" := by
  induction ls with
  | nil => intro _ _ _ acc hacc s hs; exact hacc s hs
  | cons l ls ih =>
    intro inItem itemName observation acc hacc s hs
    rw [extLoop] at hs
    simp only [] at hs
    split_ifs at hs <;>
      first
        | exact ih _ _ _ _ hacc s hs
        | · refine ih _ _ _ _ ?_ s hs
            intro x hx
            rcases List.mem_append.mp hx with hx1 | hx2
            · exact hacc x hx1
            · rw [List.mem_singleton.mp hx2]
              exact bne_iff_ne.mp (by assumption)

theorem extractItemBlocks_mem_ne_empty (tag phrase : String) {lines : List String}
    {s : String} (h : s ∈ extractItemBlocks tag phrase lines) : s ≠ "" := by
  rw [extractItemBlocks] at h
  rcases hf : findSummary lines with _ | ⟨hd, rest⟩ <;> rw [hf] at h
  · cases h
  · exact extLoop_mem_ne_empty tag phrase _ _ _ _ (by intro x hx; cases hx) s h

/-- C4 counterexample: an item block with a name and an observation but no
color tag at all is not discarded — it is appended to all three output
arrays (Required, Recommended and Advisory) at once. -/
theorem untagged_block_in_all_arrays :
    extractRequiredChanges untaggedBlockDoc = ["Foo: obs text"] ∧
      extractRecommendedChanges untaggedBlockDoc = ["Foo: obs text"] ∧
      extractAdvisoryActions untaggedBlockDoc = ["Foo: obs text"] := by
  exact ⟨by decide, by decide, by decide⟩

/-- C4 (amended): every entry of the three extracted item arrays is a
non-empty string (built from a non-empty item name); however, item blocks
with no color tag are kept rather than discarded — only a block whose tag
belongs to a different status is dropped. -/
theorem extracted_items_nonempty (lines : List String) (s : String)
    (h : s ∈ extractRequiredChanges lines ∨ s ∈ extractRecommendedChanges lines ∨
      s ∈ extractAdvisoryActions lines) : s ≠ "" := by
  rcases h with h | h | h
  · exact extractItemBlocks_mem_ne_empty _ _ h
  · exact extractItemBlocks_mem_ne_empty _ _ h
  · exact extractItemBlocks_mem_ne_empty _ _ h

/-- Witness for the amended C4: the entry extracted from a concrete block is
a non-empty string. -/
theorem extracted_items_nonempty_witness : ("Foo: obs text" : String) ≠ "" :=
  extracted_items_nonempty untaggedBlockDoc "Foo: obs text" (Or.inl (by decide))

theorem bumpStatus_fourOf_congr (l : String) {c c' : StatusCounts}
    (h : fourOf c = fourOf c') : fourOf (bumpStatus l c) = fourOf (bumpStatus l c') := by
  obtain ⟨h1, h2, h3, h4⟩ : c.required = c'.required ∧ c.recommended = c'.recommended ∧
      c.advisory = c'.advisory ∧ c.noChange = c'.noChange := by
    simpa [fourOf, Prod.ext_iff] using h
  unfold bumpStatus
  split_ifs <;> simp [fourOf, h1, h2, h3, h4]

theorem countAllLoop_fourOf_congr (ls : List String) :
    ∀ (inItem inTable : Bool) {c c' : StatusCounts}, fourOf c = fourOf c' →
      fourOf (countAllLoop ls inItem inTable c)
        = fourOf (countAllLoop ls inItem inTable c') := by
  induction ls with
  | nil => intro _ _ c c' h; exact h
  | cons l ls ih =>
    intro inItem inTable c c' h
    simp only [countAllLoop]
    split_ifs <;>
      first
        | exact h
        | exact ih _ _ h
        | exact ih _ _ (bumpStatus_fourOf_congr l h)

theorem bumpStatus_gray_fourOf {l : String}
    (hr : goContains l redTag = false) (hy : goContains l yellowTag = false)
    (hb : goContains l blueTag = false) (hgr : goContains l greenTag = false)
    (c : StatusCounts) : fourOf (bumpStatus l c) = fourOf c := by
  simp only [bumpStatus, hr, hy, hb, hgr, Bool.false_eq_true, if_false]
  split_ifs <;> simp [fourOf]

theorem countAllLoop_gray_cons {g : String} (hg : isGrayRow g) (ls : List String)
    (inItem inTable : Bool) (c : StatusCounts) :
    fourOf (countAllLoop (g :: ls) inItem inTable c)
      = fourOf (countAllLoop ls inItem inTable c) := by
  obtain ⟨hgray, hr, hy, hb, hgr, htbl, hs, he, hh⟩ := hg
  simp only [countAllLoop, hs, he, htbl, Bool.false_eq_true, if_false, Bool.false_and]
  split_ifs with h5 h6
  · rfl
  · exact countAllLoop_fourOf_congr ls inItem inTable (bumpStatus_gray_fourOf hr hy hb hgr c)
  · rfl

theorem countAllLoop_grays (ys : List String) (inItem inTable : Bool) (c : StatusCounts) :
    ∀ grays : List String, (∀ g ∈ grays, isGrayRow g) →
      fourOf (countAllLoop (grays ++ ys) inItem inTable c)
        = fourOf (countAllLoop ys inItem inTable c) := by
  intro grays
  induction grays with
  | nil => intro _; rfl
  | cons g gs ih =>
    intro hg
    rw [List.cons_append, countAllLoop_gray_cons (hg g (List.mem_cons_self g gs))]
    exact ih (fun x hx => hg x (List.mem_cons_of_mem g hx))

theorem countAllLoop_insert_grays (grays : List String) (hg : ∀ g ∈ grays, isGrayRow g) :
    ∀ (xs ys : List String) (inItem inTable : Bool) (c : StatusCounts),
      fourOf (countAllLoop (xs ++ grays ++ ys) inItem inTable c)
        = fourOf (countAllLoop (xs ++ ys) inItem inTable c) := by
  intro xs
  induction xs with
  | nil =>
    intro ys it tb c
    simpa using countAllLoop_grays ys it tb c grays hg
  | cons x xs ih =>
    intro ys it tb c
    simp only [List.cons_append, countAllLoop]
    split_ifs <;> first | rfl | exact ih _ _ _ _

theorem countAllStatusItems_shape {pre : List String} {hd : String} (rest : List String)
    (hpre : ∀ l ∈ pre, goTrim l ≠ "= Summary") (hhd : goTrim hd = "= Summary") :
    countAllStatusItems (pre ++ hd :: rest)
      = countAllLoop (hd :: takeSummary rest) false false ⟨0, 0, 0, 0, 0⟩ := by
  unfold countAllStatusItems
  rw [findSummary_append rest hpre hhd]

theorem overallScoreOf_congr {L1 L2 : List String}
    (h : fourOf (countAllStatusItems L1) = fourOf (countAllStatusItems L2)) :
    overallScoreOf L1 = overallScoreOf L2 := by
  obtain ⟨h1, h2, h3, h4⟩ : (countAllStatusItems L1).required = (countAllStatusItems L2).required ∧
      (countAllStatusItems L1).recommended = (countAllStatusItems L2).recommended ∧
      (countAllStatusItems L1).advisory = (countAllStatusItems L2).advisory ∧
      (countAllStatusItems L1).noChange = (countAllStatusItems L2).noChange := by
    simpa [fourOf, Prod.ext_iff] using h
  simp only [overallScoreOf, h1, h2, h3, h4]

/-- C2: inserting any number of NotApplicable (gray-tagged) rows into the
Summary section leaves the four counted tallies, and with them the overall
score, unchanged — NotApplicable rows never enter the score's numerator or
denominator. -/
theorem overallScore_notApplicable_invariant
    (pre : List String) (hd : String) (a grays b post : List String)
    (hpre : ∀ l ∈ pre, goTrim l ≠ "= Summary")
    (hhd : goTrim hd = "= Summary")
    (ha : ∀ l ∈ a, isHeadingLine l = false)
    (hb : ∀ l ∈ b, isHeadingLine l = false)
    (hg : ∀ g ∈ grays, isGrayRow g) :
    overallScoreOf (pre ++ hd :: ((a ++ grays ++ b) ++ post))
        = overallScoreOf (pre ++ hd :: ((a ++ b) ++ post)) ∧
      fourOf (countAllStatusItems (pre ++ hd :: ((a ++ grays ++ b) ++ post)))
        = fourOf (countAllStatusItems (pre ++ hd :: ((a ++ b) ++ post))) := by
  have hgHead : ∀ g ∈ grays, isHeadingLine g = false :=
    fun g hgm => (hg g hgm).2.2.2.2.2.2.2.2
  have hagb : ∀ l ∈ a ++ grays ++ b, isHeadingLine l = false := by
    intro l hl
    rcases List.mem_append.mp hl with hl1 | hl2
    · rcases List.mem_append.mp hl1 with hl3 | hl4
      · exact ha l hl3
      · exact hgHead l hl4
    · exact hb l hl2
  have hab : ∀ l ∈ a ++ b, isHeadingLine l = false := by
    intro l hl
    rcases List.mem_append.mp hl with hl1 | hl2
    · exact ha l hl1
    · exact hb l hl2
  have hcounts : fourOf (countAllStatusItems (pre ++ hd :: ((a ++ grays ++ b) ++ post)))
      = fourOf (countAllStatusItems (pre ++ hd :: ((a ++ b) ++ post))) := by
    rw [countAllStatusItems_shape _ hpre hhd, countAllStatusItems_shape _ hpre hhd,
      takeSummary_append post hagb, takeSummary_append post hab]
    have hins := countAllLoop_insert_grays grays hg (hd :: a) (b ++ takeSummary post)
      false false ⟨0, 0, 0, 0, 0⟩
    simp only [List.cons_append, List.append_assoc] at hins ⊢
    exact hins
  exact ⟨overallScoreOf_congr hcounts, hcounts⟩

/-- Witness for C2: inserting one gray row into a concrete one-item Summary
table changes neither the four tallies nor the overall score. -/
theorem overallScore_notApplicable_invariant_witness :
    overallScoreOf (([] : List String) ++ "= Summary" ::
        ((["|===", "|Node health \x7bset:cellbgcolor:#00FF00\x7d"] ++
          ["|Skipped check \x7bset:cellbgcolor:#A6B9BF\x7d"] ++ ["|==="]) ++ []))
      = overallScoreOf (([] : List String) ++ "= Summary" ::
        ((["|===", "|Node health \x7bset:cellbgcolor:#00FF00\x7d"] ++ ["|==="]) ++ [])) ∧
    fourOf (countAllStatusItems (([] : List String) ++ "= Summary" ::
        ((["|===", "|Node health \x7bset:cellbgcolor:#00FF00\x7d"] ++
          ["|Skipped check \x7bset:cellbgcolor:#A6B9BF\x7d"] ++ ["|==="]) ++ [])))
      = fourOf (countAllStatusItems (([] : List String) ++ "= Summary" ::
        ((["|===", "|Node health \x7bset:cellbgcolor:#00FF00\x7d"] ++ ["|==="]) ++ []))) :=
  overallScore_notApplicable_invariant [] "= Summary"
    ["|===", "|Node health \x7bset:cellbgcolor:#00FF00\x7d"]
    ["|Skipped check \x7bset:cellbgcolor:#A6B9BF\x7d"] ["|==="] []
    (by decide) (by decide) (by decide) (by decide) (by decide)

end OHD
